import Mathlib

/-!
Verification of the Gee-nomics genomic search engine
(`Genome.cpp`, `GenomeMatcher.cpp`, `Trie.h`).

Shallow embedding conventions:
* C++ `std::string` is modelled as `List Char`; trie keys are the byte values
  of the characters (`Char.toNat`), matching the 256-ary child array.
* C++ `int` arguments that are nonnegative throughout the specified behaviour
  (positions, lengths, the minimum search length) are modelled as `Nat`;
  `Genome::extract` keeps genuine `Int` arguments because its bounds checks
  are visible to callers for negative inputs.
* Out-parameters (`vector<DNAMatch>& matches`, `vector<GenomeMatch>& results`)
  are modelled by passing the container's prior contents in and returning the
  pair (boolean result, container contents after the call).
* The `unordered_map` used for per-genome deduplication has unspecified
  iteration order in C++; it is modelled as an insertion-ordered association
  list (a deterministic refinement; the proved properties are order-independent).
* `double` percentages are modelled as `ℚ`.
-/

namespace Geenomics

/-! ## Trie (from `Trie.h`)

A node holds a list of values and a 256-ary child array (`Node* m_children[256]`),
modelled as a function from byte values to optional children. -/

inductive Trie (V : Type) : Type where
  | node (values : List V) (children : Nat → Option (Trie V))

namespace Trie

variable {V : Type}

/-- A freshly constructed node: no values, all child pointers null. -/
def emptyTrie : Trie V := .node [] (fun _ => none)

def values : Trie V → List V
  | node vs _ => vs

def child : Trie V → Nat → Option (Trie V)
  | node _ ch, c => ch c

/-- `Trie::insert`: walk the key, creating nodes as needed, and append the
value at the terminal node (`m_values.push_back(value)`). -/
def insert : Trie V → List Nat → V → Trie V
  | node vs ch, [], v => node (vs ++ [v]) ch
  | node vs ch, c :: cs, v =>
      let t := (ch c).getD emptyTrie
      node vs (fun x => if x = c then some (insert t cs v) else ch x)

/-- `Trie::findHelper`: recursive descent on the remainder of the key.
The `none` case is the `t == nullptr` check; in the approximate branch the
results of the exact-first-character descent are followed by the results of
descending into each of the other 256 child slots with no further mismatch
allowed (`for i in 0..255, i != firstChar`). -/
def findHelper : List Nat → Bool → Option (Trie V) → List V
  | [], _, none => []
  | [], _, some t => t.values
  | _ :: _, _, none => []
  | c :: cs, true, some t => findHelper cs true (t.child c)
  | c :: cs, false, some t =>
      findHelper cs false (t.child c) ++
      (((List.range 256).filter (fun i => i ≠ c)).map
        (fun i => findHelper cs true (t.child i))).flatten

/-- `Trie::find`: the empty key returns the root's values; otherwise the first
character must match exactly, then `findHelper` takes over. -/
def find (t : Trie V) (key : List Nat) (exactMatchOnly : Bool) : List V :=
  match key, t with
  | [], node vs _ => vs
  | c :: cs, node _ ch =>
      match ch c with
      | none => []
      | some t0 => findHelper cs exactMatchOnly (some t0)

/-- The node reached from `t` by following the exact path `p`. -/
def nodeAt : Trie V → List Nat → Option (Trie V)
  | t, [] => some t
  | t, c :: cs =>
      match t.child c with
      | none => none
      | some t0 => nodeAt t0 cs

/-- The values stored at the node reached by exact path `p` (empty when no
such node exists). -/
def valuesAt (t : Trie V) (p : List Nat) : List V :=
  match t.nodeAt p with
  | some n => n.values
  | none => []

end Trie

/-- Number of positions at which two equal-length character lists differ
(positionwise; surplus positions of either list are ignored). -/
def countMismatch : List Nat → List Nat → Nat
  | a :: as, b :: bs => (if a = b then 0 else 1) + countMismatch as bs
  | _, _ => 0

/-! ## Genome (from `Genome.cpp`) -/

/-- `GenomeImpl`: a name and a base sequence, stored exactly as passed to the
constructor (`m_name(nm), m_sequence(sequence)`). -/
structure Genome where
  name : List Char
  sequence : List Char
deriving DecidableEq, Repr

/-- `std::string::substr(pos, count)` for `pos ≤ s.length`, where `count` is a
C++ `int` implicitly converted to `size_t`: a negative `count` wraps to a huge
unsigned value and is clipped to "the rest of the string". -/
def cppSubstr (s : List Char) (pos : Nat) (count : Int) : List Char :=
  if count < 0 then s.drop pos else (s.drop pos).take count.toNat

/-- `GenomeImpl::extract(position, length, fragment)`.  Fails when
`position < 0 || position >= m_sequence.length()`, and when
`position + length > m_sequence.length()` — where the left side is an `int`
sum converted to `size_t`, so a negative sum also fails.  On success the
result is `m_sequence.substr(position, length)`. -/
def Genome.extract (g : Genome) (position length : Int) : Option (List Char) :=
  if position < 0 ∨ (g.sequence.length : Int) ≤ position then none
  else if position + length < 0 then none
  else if (g.sequence.length : Int) < position + length then none
  else some (cppSubstr g.sequence position.toNat length)

/-- `extract` at `Nat` arguments, as used by `GenomeMatcherImpl` (all its
calls pass nonnegative positions and lengths). -/
def extractN (g : Genome) (position length : Nat) : Option (List Char) :=
  g.extract position length

/-! ## GenomeMatcher (from `GenomeMatcher.cpp`) -/

/-- The sentinel string `"error"` used by `GenomeMatcherImpl` to detect
extraction failure (`string substring = "error"; ...extract...;
if (substring == "error") break;`). -/
def errChars : List Char := ['e', 'r', 'r', 'o', 'r']

structure DNAMatch where
  genomeName : List Char
  length : Nat
  position : Nat
deriving DecidableEq, Repr

structure GenomeMatch where
  genomeName : List Char
  percentMatch : ℚ
deriving DecidableEq, Repr

structure GenomeMatcher where
  minSearchLength : Nat
  genomeLibrary : List Genome
  sequencedDNA : Trie (Nat × Nat)

/-- Fuelled form of the `addGenome` loop; the fuel is an upper bound on the
number of remaining iterations (`extractN` succeeds only at offsets below the
sequence length, so `g.sequence.length - i` fuel always suffices, and the
fuel-exhausted branch is unreachable — see `seedLoop_eq`). -/
def seedLoopF (g : Genome) (k gid : Nat) : Nat → Nat → Trie (Nat × Nat) →
    Trie (Nat × Nat)
  | fuel, i, t =>
    if (extractN g i k).getD errChars = errChars then t
    else
      match fuel with
      | 0 => t
      | fuel + 1 =>
          seedLoopF g k gid fuel (i + 1)
            (t.insert (((extractN g i k).getD errChars).map Char.toNat) (gid, i))

/-- The loop body of `addGenome`: starting at offset `i`, extract the
`minSearchLength`-character substring; stop when the sentinel shows failure,
otherwise insert `(gid, i)` under that substring and continue at `i + 1`.
`gid` is the 1-based genome number (`m_genomeLibrary.size()` after the
`push_back`). -/
def seedLoop (g : Genome) (k gid : Nat) (i : Nat) (t : Trie (Nat × Nat)) :
    Trie (Nat × Nat) :=
  seedLoopF g k gid (g.sequence.length - i) i t

/-- `GenomeMatcherImpl::addGenome`: push the genome onto the library, then
index every extractable `minSearchLength`-substring with the 1-based genome
number and the offset. -/
def addGenome (m : GenomeMatcher) (g : Genome) : GenomeMatcher :=
  { m with
    genomeLibrary := m.genomeLibrary ++ [g]
    sequencedDNA :=
      seedLoop g m.minSearchLength (m.genomeLibrary ++ [g]).length 0 m.sequencedDNA }

/-- A matcher constructed with `GenomeMatcher(minSearchLength)` and then fed
the given genomes through `addGenome`, in order. -/
def buildMatcher (k : Nat) (gs : List Genome) : GenomeMatcher :=
  gs.foldl addGenome ⟨k, [], Trie.emptyTrie⟩

/-- The genome `m_genomeLibrary[gid - 1]` used for a 1-based genome number
(out-of-range access is modelled by a default genome; reachable states only
produce in-range numbers). -/
def genomeOf (m : GenomeMatcher) (gid : Nat) : Genome :=
  m.genomeLibrary.getD (gid - 1) ⟨[], []⟩

/-- The extension loop of `findGenomesWithThisDNA`: starting from
`actualLength = aL` with one-mismatch flag `snipped`, grow the candidate
match base by base and return the final `actualLength`.  Mirrors the C++
`for (; actualLength <= fragment.size(); actualLength++)` loop, including the
`"error"` sentinel (a failed extraction leaves the sentinel in place, and an
extraction that genuinely produces `"error"` is indistinguishable from it). -/
def extendLoopF (g : Genome) (frag : List Char) (pos : Nat) :
    Nat → Nat → Bool → Nat
  | fuel, aL, snipped =>
    if frag.length < aL then aL
    else
      match fuel with
      | 0 => aL
      | fuel + 1 =>
        let sub := (extractN g pos aL).getD errChars
        if sub = errChars then aL
        else if sub = frag.take aL then
          if aL = frag.length then aL else extendLoopF g frag pos fuel (aL + 1) snipped
        else if snipped = false then
          if sub.length = frag.length then aL
          else extendLoopF g frag pos fuel (aL + 1) true
        else if sub.getD (aL - 1) '?' ≠ frag.getD (aL - 1) '?' then aL - 1
        else if sub.length = frag.length then aL
        else extendLoopF g frag pos fuel (aL + 1) snipped

def extendLoop (g : Genome) (frag : List Char) (pos : Nat) (aL : Nat)
    (snipped : Bool) : Nat :=
  extendLoopF g frag pos (frag.length + 1 - aL) aL snipped

/-- The seed hits the trie returns for the fragment's `minSearchLength`-prefix
(`m_sequencedDNA.find(fragment.substr(0, m_minSearchLength), exactMatchOnly)`). -/
def seedsOf (m : GenomeMatcher) (frag : List Char) (exactMatchOnly : Bool) :
    List (Nat × Nat) :=
  m.sequencedDNA.find ((frag.take m.minSearchLength).map Char.toNat) exactMatchOnly

/-- The `actualLength` produced by extending the seed `(gid, pos)` against
`frag` (the extension starts at `m_minSearchLength` with
`snipped = exactMatchOnly`). -/
def extLen (m : GenomeMatcher) (frag : List Char) (exactMatchOnly : Bool)
    (s : Nat × Nat) : Nat :=
  extendLoop (genomeOf m s.1) frag s.2 m.minSearchLength exactMatchOnly

/-- One iteration of the per-seed loop: extend the seed, discard it when the
final `actualLength` is below `minimumLength` (the `continue`), otherwise
build the `DNAMatch` for the map keyed by genome number. -/
def candidateFor (m : GenomeMatcher) (frag : List Char) (minimumLength : Nat)
    (exactMatchOnly : Bool) (s : Nat × Nat) : Option (Nat × DNAMatch) :=
  if extLen m frag exactMatchOnly s < minimumLength then none
  else some (s.1, ⟨(genomeOf m s.1).name, extLen m frag exactMatchOnly s, s.2⟩)

/-- Lookup in the per-genome best-match map (`match.find(currentGenome)`). -/
def lookupBest (gid : Nat) : List (Nat × DNAMatch) → Option DNAMatch
  | [] => none
  | (g0, d) :: rest => if g0 = gid then some d else lookupBest gid rest

/-- Updating the per-genome best-match map: replace the stored match when the
new one is strictly longer, insert when the genome number is new.  (The C++
`unordered_map` has unspecified iteration order; the model keeps entries in
first-insertion order.) -/
def insertBest (acc : List (Nat × DNAMatch)) (gid : Nat) (d : DNAMatch) :
    List (Nat × DNAMatch) :=
  match lookupBest gid acc with
  | some d0 =>
      if d0.length < d.length then
        acc.map (fun x => if x.1 = gid then (gid, d) else x)
      else acc
  | none => acc ++ [(gid, d)]

/-- The per-genome best-match map produced by folding the per-seed loop over
all seed hits. -/
def bestOf (m : GenomeMatcher) (frag : List Char) (minimumLength : Nat)
    (exactMatchOnly : Bool) : List (Nat × DNAMatch) :=
  ((seedsOf m frag exactMatchOnly).filterMap
      (candidateFor m frag minimumLength exactMatchOnly)).foldl
    (fun acc gd => insertBest acc gd.1 gd.2) []

/-- `GenomeMatcherImpl::findGenomesWithThisDNA`.  `matches0` is the content of
the caller's `matches` vector when the call is made; the result pairs the
returned boolean with the vector's content after the call.  Note that the two
precondition checks run before `matches.clear()`. -/
def findGenomesWithThisDNA (m : GenomeMatcher) (frag : List Char)
    (minimumLength : Nat) (exactMatchOnly : Bool) (matches0 : List DNAMatch) :
    Bool × List DNAMatch :=
  if frag.length < minimumLength then (false, matches0)
  else if minimumLength < m.minSearchLength then (false, matches0)
  else if (seedsOf m frag exactMatchOnly).length = 0 then (false, [])
  else if ((bestOf m frag minimumLength exactMatchOnly).map Prod.snd).length = 0 then
    (false, (bestOf m frag minimumLength exactMatchOnly).map Prod.snd)
  else (true, (bestOf m frag minimumLength exactMatchOnly).map Prod.snd)

/-- `genomeMatches[name]++` on the name-to-count map (modelled as a total
function with default 0, matching `unordered_map::operator[]`). -/
def bump (c : List Char → Nat) (nm : List Char) : List Char → Nat :=
  fun x => if x = nm then c x + 1 else c x

/-- Fuelled form of the window loop of `findRelatedGenomes` (the fuel bounds
the remaining iterations; `S - i` always suffices, see `windowLoop_eq`). -/
def windowLoopF (m : GenomeMatcher) (q : Genome) (fm : Nat)
    (exactMatchOnly : Bool) (S : Nat) : Nat → Nat → (List Char → Nat) →
    List Char → Nat
  | fuel, i, c =>
    if S ≤ i then c
    else
      match fuel with
      | 0 => c
      | fuel + 1 =>
        let w := (extractN q (i * fm) fm).getD errChars
        if w = errChars then c
        else
          let ms := (findGenomesWithThisDNA m w fm exactMatchOnly []).2
          windowLoopF m q fm exactMatchOnly S fuel (i + 1)
            (ms.foldl (fun cc d => bump cc d.genomeName) c)

/-- The window loop of `findRelatedGenomes`: for `i` in `0 .. S-1`, extract
the `i`-th disjoint window of the query, stop on the `"error"` sentinel,
otherwise search for it with a fresh `matches` vector and increment the
per-name counters for every returned match. -/
def windowLoop (m : GenomeMatcher) (q : Genome) (fm : Nat)
    (exactMatchOnly : Bool) (S : Nat) (i : Nat) (c : List Char → Nat) :
    List Char → Nat :=
  windowLoopF m q fm exactMatchOnly S (S - i) i c

/-- `genomeMatchCompare`: percent descending, then name ascending (the
comparator passed to `std::sort`). -/
def genomeMatchCompare (a b : GenomeMatch) : Bool :=
  if a.percentMatch > b.percentMatch then true
  else if a.percentMatch < b.percentMatch then false
  else decide (a.genomeName < b.genomeName)

/-- Insertion into a list sorted by `genomeMatchCompare`. -/
def insertSorted (gm : GenomeMatch) : List GenomeMatch → List GenomeMatch
  | [] => [gm]
  | x :: xs => if genomeMatchCompare gm x then gm :: x :: xs else x :: insertSorted gm xs

/-- `std::sort(results.begin(), results.end(), &genomeMatchCompare)`, modelled
as insertion sort (the comparator only leaves the order of fully identical
entries unspecified, so this is a deterministic refinement). -/
def sortResults : List GenomeMatch → List GenomeMatch
  | [] => []
  | x :: xs => insertSorted x (sortResults xs)

/-- The per-name window-hit counters after the window loop of
`findRelatedGenomes` has run over all `S = query.length / fm` windows. -/
def relatedCounts (m : GenomeMatcher) (q : Genome) (fm : Nat)
    (exactMatchOnly : Bool) : List Char → Nat :=
  windowLoop m q fm exactMatchOnly (q.sequence.length / fm) 0 (fun _ => 0)

/-- The percentage computed for one library genome's name:
`(genomeMatches[name] / (double)numSequences) * 100`. -/
def relatedPercent (m : GenomeMatcher) (q : Genome) (fm : Nat)
    (exactMatchOnly : Bool) (nm : List Char) : ℚ :=
  (relatedCounts m q fm exactMatchOnly nm : ℚ) /
    ((q.sequence.length / fm : Nat) : ℚ) * 100

/-- The unsorted results of `findRelatedGenomes`: one `GenomeMatch` for each
library genome whose percentage strictly exceeds the threshold (a genome name
appearing several times in the library is emitted once per occurrence). -/
def relatedResults (m : GenomeMatcher) (q : Genome) (fm : Nat)
    (exactMatchOnly : Bool) (τ : ℚ) : List GenomeMatch :=
  m.genomeLibrary.filterMap (fun g =>
    if relatedPercent m q fm exactMatchOnly g.name > τ then
      some (⟨g.name, relatedPercent m q fm exactMatchOnly g.name⟩ : GenomeMatch)
    else none)

/-- `GenomeMatcherImpl::findRelatedGenomes`.  `results0` is the content of the
caller's `results` vector when the call is made.  The `fragmentMatchLength <
m_minSearchLength` check runs before `results.clear()`; the zero-window check
runs after it. -/
def findRelatedGenomes (m : GenomeMatcher) (q : Genome) (fm : Nat)
    (exactMatchOnly : Bool) (τ : ℚ) (results0 : List GenomeMatch) :
    Bool × List GenomeMatch :=
  if fm < m.minSearchLength then (false, results0)
  else if q.sequence.length / fm = 0 then (false, [])
  else if (relatedResults m q fm exactMatchOnly τ).length = 0 then
    (false, relatedResults m q fm exactMatchOnly τ)
  else (true, sortResults (relatedResults m q fm exactMatchOnly τ))

/-! ## Specification-side definitions (for stating claims) -/

/-- The `actualLength`s of the admissible matches for genome number `gid`:
one for each seed hit the trie returns for the fragment's
`minSearchLength`-prefix that belongs to `gid` and whose extension reaches at
least `minimumLength`. -/
def admissLens (m : GenomeMatcher) (frag : List Char) (minimumLength : Nat)
    (exactMatchOnly : Bool) (gid : Nat) : List Nat :=
  (((seedsOf m frag exactMatchOnly).filter
      (fun s => decide (s.1 = gid ∧ minimumLength ≤ extLen m frag exactMatchOnly s))).map
    (extLen m frag exactMatchOnly))

/-- The data-model invariant on genome sequences: every character is one of
the five bases, stored in uppercase. -/
def validSequence (s : List Char) : Prop :=
  ∀ c ∈ s, c = 'A' ∨ c = 'C' ∨ c = 'G' ∨ c = 'T' ∨ c = 'N'

/-- Every value stored anywhere in the trie satisfies `P`. -/
inductive TrieAll {V : Type} (P : V → Prop) : Trie V → Prop where
  | node (vs : List V) (ch : Nat → Option (Trie V)) :
      (∀ v ∈ vs, P v) → (∀ c t0, ch c = some t0 → TrieAll P t0) →
      TrieAll P (Trie.node vs ch)

/-- The seed values stored in a matcher's trie carry 1-based genome numbers
no larger than the library size. -/
def gidInRange (n : Nat) (v : Nat × Nat) : Prop := 1 ≤ v.1 ∧ v.1 ≤ n

/-- A matcher holding two distinct genomes that share the name `"P"` (used to
exhibit name-keyed counting artefacts). -/
def dupMatcher : GenomeMatcher :=
  buildMatcher 3 [⟨['P'], ['A', 'A', 'A']⟩, ⟨['P'], ['A', 'A', 'A']⟩]

/-- A matcher holding a single genome named `"P"`. -/
def uniqMatcher : GenomeMatcher := buildMatcher 3 [⟨['P'], ['A', 'A', 'A']⟩]

/-- A three-base query genome. -/
def queryAAA : Genome := ⟨['q'], ['A', 'A', 'A']⟩

/-! ## Basic lemmas -/

theorem extractN_eq (g : Genome) (p l : Nat) :
    extractN g p l =
      if p < g.sequence.length ∧ p + l ≤ g.sequence.length then
        some ((g.sequence.drop p).take l)
      else none := by
  unfold extractN Genome.extract cppSubstr
  by_cases h1 : p < g.sequence.length
  · by_cases h2 : p + l ≤ g.sequence.length
    · have hc1 : ¬ ((p : Int) < 0 ∨ (g.sequence.length : Int) ≤ (p : Int)) := by
        push_neg
        omega
      have hc2 : ¬ ((p : Int) + (l : Int) < 0) := by omega
      have hc3 : ¬ ((g.sequence.length : Int) < (p : Int) + (l : Int)) := by omega
      have hc4 : ¬ ((l : Int) < 0) := by omega
      rw [if_neg hc1, if_neg hc2, if_neg hc3, if_neg hc4, if_pos ⟨h1, h2⟩]
      simp
    · have hc3 : (g.sequence.length : Int) < (p : Int) + (l : Int) := by omega
      have hc2 : ¬ ((p : Int) + (l : Int) < 0) := by omega
      have hres : ¬ (p < g.sequence.length ∧ p + l ≤ g.sequence.length) := by omega
      by_cases hc1 : ((p : Int) < 0 ∨ (g.sequence.length : Int) ≤ (p : Int))
      · rw [if_pos hc1, if_neg hres]
      · rw [if_neg hc1, if_neg hc2, if_pos hc3, if_neg hres]
  · have hc1 : ((p : Int) < 0 ∨ (g.sequence.length : Int) ≤ (p : Int)) := by
      right
      omega
    rw [if_pos hc1, if_neg (by omega : ¬ (p < g.sequence.length ∧ p + l ≤ g.sequence.length))]

theorem extractN_getD_ne (g : Genome) (i k : Nat)
    (h : (extractN g i k).getD errChars ≠ errChars) : i < g.sequence.length := by
  rw [extractN_eq] at h
  by_cases hc : i < g.sequence.length ∧ i + k ≤ g.sequence.length
  · exact hc.1
  · rw [if_neg hc] at h
    simp at h

/-- `seedLoop` satisfies the loop's natural unfolding: the fuel in
`seedLoopF` never runs out. -/
theorem seedLoop_eq (g : Genome) (k gid i : Nat) (t : Trie (Nat × Nat)) :
    seedLoop g k gid i t =
      if (extractN g i k).getD errChars = errChars then t
      else
        seedLoop g k gid (i + 1)
          (t.insert (((extractN g i k).getD errChars).map Char.toNat) (gid, i)) := by
  unfold seedLoop
  by_cases h : (extractN g i k).getD errChars = errChars
  · cases hf : g.sequence.length - i <;> simp [seedLoopF, h]
  · have hi : i < g.sequence.length := extractN_getD_ne g i k h
    have hf : g.sequence.length - i = (g.sequence.length - (i + 1)) + 1 := by omega
    rw [hf]
    simp [seedLoopF, h]

/-- `extendLoop` satisfies the loop's natural unfolding: the fuel in
`extendLoopF` never runs out, because the loop iterates only while
`actualLength ≤ fragment.size()`. -/
theorem extendLoop_eq (g : Genome) (frag : List Char) (pos aL : Nat)
    (snipped : Bool) :
    extendLoop g frag pos aL snipped =
      if frag.length < aL then aL
      else
        let sub := (extractN g pos aL).getD errChars
        if sub = errChars then aL
        else if sub = frag.take aL then
          if aL = frag.length then aL else extendLoop g frag pos (aL + 1) snipped
        else if snipped = false then
          if sub.length = frag.length then aL
          else extendLoop g frag pos (aL + 1) true
        else if sub.getD (aL - 1) '?' ≠ frag.getD (aL - 1) '?' then aL - 1
        else if sub.length = frag.length then aL
        else extendLoop g frag pos (aL + 1) snipped := by
  unfold extendLoop
  by_cases hgt : frag.length < aL
  · cases hf : frag.length + 1 - aL <;> simp [extendLoopF, hgt]
  · have hf : frag.length + 1 - aL = (frag.length + 1 - (aL + 1)) + 1 := by omega
    rw [hf]
    conv_lhs => rw [extendLoopF]

/-- `windowLoop` satisfies the loop's natural unfolding: the fuel in
`windowLoopF` never runs out. -/
theorem windowLoop_eq (m : GenomeMatcher) (q : Genome) (fm : Nat)
    (exactMatchOnly : Bool) (S i : Nat) (c : List Char → Nat) :
    windowLoop m q fm exactMatchOnly S i c =
      if S ≤ i then c
      else
        let w := (extractN q (i * fm) fm).getD errChars
        if w = errChars then c
        else
          let ms := (findGenomesWithThisDNA m w fm exactMatchOnly []).2
          windowLoop m q fm exactMatchOnly S (i + 1)
            (ms.foldl (fun cc d => bump cc d.genomeName) c) := by
  unfold windowLoop
  by_cases hle : S ≤ i
  · cases hf : S - i <;> simp [windowLoopF, hle]
  · have hf : S - i = (S - (i + 1)) + 1 := by omega
    rw [hf]
    conv_lhs => rw [windowLoopF]

theorem extract_isSome_iff (g : Genome) (position length : Int) :
    (g.extract position length).isSome ↔
      0 ≤ position ∧ position < g.sequence.length ∧
      0 ≤ position + length ∧ position + length ≤ g.sequence.length := by
  unfold Genome.extract
  split_ifs with h1 h2 h3 <;> simp <;> omega

theorem extract_some_val (g : Genome) (position length : Int) (s : List Char)
    (h : g.extract position length = some s) :
    (0 ≤ length → s = (g.sequence.drop position.toNat).take length.toNat) ∧
    (length < 0 → s = g.sequence.drop position.toNat) := by
  unfold Genome.extract at h
  split_ifs at h with h1 h2 h3
  rw [Option.some_inj] at h
  subst h
  unfold cppSubstr
  constructor
  · intro hl
    rw [if_neg (not_lt.mpr hl)]
  · intro hl
    rw [if_pos hl]

/-! ## Trie lemmas -/

namespace Trie

variable {V : Type}

theorem findHelper_none (cs : List Nat) (b : Bool) :
    findHelper (V := V) cs b none = [] := by
  cases cs <;> cases b <;> rfl

theorem findHelper_nil (b : Bool) (t : Trie V) :
    findHelper [] b (some t) = t.values := by
  cases b <;> rfl

theorem findHelper_cons_true (c : Nat) (cs : List Nat) (t : Trie V) :
    findHelper (c :: cs) true (some t) = findHelper cs true (t.child c) := rfl

theorem findHelper_cons_false (c : Nat) (cs : List Nat) (t : Trie V) :
    findHelper (c :: cs) false (some t) =
      findHelper cs false (t.child c) ++
      (((List.range 256).filter (fun i => i ≠ c)).map
        (fun i => findHelper cs true (t.child i))).flatten := rfl

theorem valuesAt_nil (t : Trie V) : t.valuesAt [] = t.values := rfl

theorem valuesAt_cons_none {t : Trie V} {c : Nat} (p : List Nat)
    (h : t.child c = none) : t.valuesAt (c :: p) = [] := by
  simp [valuesAt, nodeAt, h]

theorem valuesAt_cons_some {t t0 : Trie V} {c : Nat} (p : List Nat)
    (h : t.child c = some t0) : t.valuesAt (c :: p) = t0.valuesAt p := by
  simp [valuesAt, nodeAt, h]

/-- Characterisation of `findHelper` membership: a value is emitted exactly
when it is stored at the end of an existing path of the key's length whose
mismatch count against the key is within the budget (0 when `exactMatchOnly`,
1 otherwise). -/
theorem mem_findHelper (cs : List Nat) (b : Bool) (t : Trie V) (v : V)
    (hcs : ∀ x ∈ cs, x < 256) :
    v ∈ findHelper cs b (some t) ↔
      ∃ p, p.length = cs.length ∧ (∀ x ∈ p, x < 256) ∧
        countMismatch cs p ≤ (if b then 0 else 1) ∧ v ∈ t.valuesAt p := by
  induction cs generalizing b t with
  | nil =>
      rw [findHelper_nil]
      constructor
      · intro hv
        exact ⟨[], rfl, by simp, by simp [countMismatch], by simpa [valuesAt_nil] using hv⟩
      · rintro ⟨p, hlen, -, -, hv⟩
        rw [List.length_nil, List.length_eq_zero] at hlen
        subst hlen
        simpa [valuesAt_nil] using hv
  | cons c cs ih =>
      have hc : c < 256 := hcs c (by simp)
      have hcs2 : ∀ x ∈ cs, x < 256 := fun x hx => hcs x (by simp [hx])
      cases b with
      | true =>
          rw [findHelper_cons_true]
          constructor
          · intro hv
            cases hch : t.child c with
            | none => rw [hch, findHelper_none] at hv; simp at hv
            | some t0 =>
                rw [hch] at hv
                obtain ⟨p, hlen, hp, hmis, hvp⟩ := (ih true t0 hcs2).mp hv
                refine ⟨c :: p, by simp [hlen], ?_, ?_, ?_⟩
                · intro x hx
                  rcases List.mem_cons.mp hx with rfl | hx
                  · exact hc
                  · exact hp x hx
                · simpa [countMismatch] using hmis
                · rwa [valuesAt_cons_some p hch]
          · rintro ⟨p, hlen, hp, hmis, hvp⟩
            cases p with
            | nil => simp at hlen
            | cons p0 p' =>
                have hmis' : countMismatch (c :: cs) (p0 :: p') = 0 := Nat.le_zero.mp (by simpa using hmis)
                rw [countMismatch] at hmis'
                have hp0 : p0 = c := by
                  by_contra hne
                  rw [if_neg (fun h => hne h.symm)] at hmis'
                  omega
                subst hp0
                cases hch : t.child p0 with
                | none => rw [valuesAt_cons_none p' hch] at hvp; simp at hvp
                | some t0 =>
                    rw [valuesAt_cons_some p' hch] at hvp
                    refine (ih true t0 hcs2).mpr ⟨p', by simpa using hlen,
                      fun x hx => hp x (by simp [hx]), ?_, hvp⟩
                    simp
                    omega
      | false =>
          rw [findHelper_cons_false]
          rw [List.mem_append]
          constructor
          · intro hv
            rcases hv with hv | hv
            · -- exact-first-character descent, budget still 1
              cases hch : t.child c with
              | none => rw [hch, findHelper_none] at hv; simp at hv
              | some t0 =>
                  rw [hch] at hv
                  obtain ⟨p, hlen, hp, hmis, hvp⟩ := (ih false t0 hcs2).mp hv
                  refine ⟨c :: p, by simp [hlen], ?_, ?_, ?_⟩
                  · intro x hx
                    rcases List.mem_cons.mp hx with rfl | hx
                    · exact hc
                    · exact hp x hx
                  · simpa [countMismatch] using hmis
                  · rwa [valuesAt_cons_some p hch]
            · -- mismatch on the first remaining character, budget drops to 0
              rw [List.mem_flatten] at hv
              obtain ⟨l, hl, hvl⟩ := hv
              rw [List.mem_map] at hl
              obtain ⟨i, hi, rfl⟩ := hl
              rw [List.mem_filter] at hi
              obtain ⟨hirange, hine⟩ := hi
              have hi256 : i < 256 := List.mem_range.mp hirange
              have hinec : i ≠ c := by simpa using hine
              cases hch : t.child i with
              | none => rw [hch, findHelper_none] at hvl; simp at hvl
              | some t0 =>
                  rw [hch] at hvl
                  obtain ⟨p, hlen, hp, hmis, hvp⟩ := (ih true t0 hcs2).mp hvl
                  refine ⟨i :: p, by simp [hlen], ?_, ?_, ?_⟩
                  · intro x hx
                    rcases List.mem_cons.mp hx with rfl | hx
                    · exact hi256
                    · exact hp x hx
                  · have hcnei : ¬ c = i := fun h => hinec h.symm
                    have h0 : countMismatch cs p = 0 := Nat.le_zero.mp (by simpa using hmis)
                    simp [countMismatch, hcnei, h0]
                  · rwa [valuesAt_cons_some p hch]
          · rintro ⟨p, hlen, hp, hmis, hvp⟩
            cases p with
            | nil => simp at hlen
            | cons p0 p' =>
                by_cases hp0 : p0 = c
                · subst hp0
                  left
                  cases hch : t.child p0 with
                  | none => rw [valuesAt_cons_none p' hch] at hvp; simp at hvp
                  | some t0 =>
                      rw [valuesAt_cons_some p' hch] at hvp
                      refine (ih false t0 hcs2).mpr ⟨p', by simpa using hlen,
                        fun x hx => hp x (by simp [hx]), ?_, hvp⟩
                      rw [countMismatch, if_pos rfl] at hmis
                      simpa using hmis
                · right
                  have hmis0 : countMismatch cs p' = 0 := by
                    rw [countMismatch, if_neg (fun h => hp0 h.symm)] at hmis
                    simp at hmis
                    omega
                  cases hch : t.child p0 with
                  | none => rw [valuesAt_cons_none p' hch] at hvp; simp at hvp
                  | some t0 =>
                      rw [valuesAt_cons_some p' hch] at hvp
                      rw [List.mem_flatten]
                      refine ⟨findHelper cs true (t.child p0), ?_, ?_⟩
                      · rw [List.mem_map]
                        refine ⟨p0, ?_, rfl⟩
                        rw [List.mem_filter]
                        constructor
                        · exact List.mem_range.mpr (hp p0 (by simp))
                        · simpa using hp0
                      · rw [hch]
                        exact (ih true t0 hcs2).mpr ⟨p', by simpa using hlen,
                          fun x hx => hp x (by simp [hx]), by simp [hmis0], hvp⟩

theorem find_cons_none {t : Trie V} {c : Nat} (cs : List Nat) (ex : Bool)
    (h : t.child c = none) : t.find (c :: cs) ex = [] := by
  cases t with
  | node vs ch =>
      simp only [child] at h
      simp [find, h]

theorem find_cons_some {t t0 : Trie V} {c : Nat} (cs : List Nat) (ex : Bool)
    (h : t.child c = some t0) : t.find (c :: cs) ex = findHelper cs ex (some t0) := by
  cases t with
  | node vs ch =>
      simp only [child] at h
      simp [find, h]

/-- Membership in a `find` result for a non-empty key, in terms of paths. -/
theorem mem_find (t : Trie V) (c : Nat) (cs : List Nat) (ex : Bool) (v : V)
    (hcs : ∀ x ∈ cs, x < 256) :
    v ∈ t.find (c :: cs) ex ↔
      ∃ q, q.length = cs.length ∧ (∀ x ∈ q, x < 256) ∧
        countMismatch cs q ≤ (if ex then 0 else 1) ∧ v ∈ t.valuesAt (c :: q) := by
  cases hch : t.child c with
  | none =>
      rw [find_cons_none cs ex hch]
      simp only [List.not_mem_nil, false_iff, not_exists]
      rintro q ⟨-, -, -, hv⟩
      rw [valuesAt_cons_none q hch] at hv
      simp at hv
  | some t0 =>
      rw [find_cons_some cs ex hch]
      rw [mem_findHelper cs ex t0 v hcs]
      constructor
      · rintro ⟨q, hlen, hq, hmis, hv⟩
        exact ⟨q, hlen, hq, hmis, by rwa [valuesAt_cons_some q hch]⟩
      · rintro ⟨q, hlen, hq, hmis, hv⟩
        exact ⟨q, hlen, hq, hmis, by rwa [valuesAt_cons_some q hch] at hv⟩

/-- Exact-mode `findHelper` returns precisely the values at the key's node. -/
theorem findHelper_exact (cs : List Nat) (t : Trie V) :
    findHelper cs true (some t) = t.valuesAt cs := by
  induction cs generalizing t with
  | nil => rw [findHelper_nil, valuesAt_nil]
  | cons c cs ih =>
      rw [findHelper_cons_true]
      cases hch : t.child c with
      | none => rw [findHelper_none, valuesAt_cons_none cs hch]
      | some t0 => rw [ih, valuesAt_cons_some cs hch]

/-- Exact-mode `find` returns precisely the values at the key's node. -/
theorem find_exact_eq (t : Trie V) (key : List Nat) :
    t.find key true = t.valuesAt key := by
  cases key with
  | nil =>
      cases t
      rfl
  | cons c cs =>
      cases hch : t.child c with
      | none => rw [find_cons_none cs true hch, valuesAt_cons_none cs hch]
      | some t0 =>
          rw [find_cons_some cs true hch, findHelper_exact, valuesAt_cons_some cs hch]

theorem mem_valuesAt_insert_self (t : Trie V) (key : List Nat) (v : V) :
    v ∈ (t.insert key v).valuesAt key := by
  induction key generalizing t with
  | nil =>
      cases t with
      | node vs ch => simp [insert, valuesAt, nodeAt, values]
  | cons c cs ih =>
      cases t with
      | node vs ch =>
          have hch : (Trie.node vs ch |>.insert (c :: cs) v).child c =
              some (((ch c).getD emptyTrie).insert cs v) := by
            simp [insert, child]
          rw [valuesAt_cons_some cs hch]
          exact ih _

theorem mem_valuesAt_insert_mono (t : Trie V) (key key2 : List Nat) (v w : V)
    (h : w ∈ t.valuesAt key) : w ∈ (t.insert key2 v).valuesAt key := by
  induction key generalizing t key2 with
  | nil =>
      cases t with
      | node vs ch =>
          cases key2 with
          | nil =>
              simp only [valuesAt, nodeAt, values, insert] at h ⊢
              exact List.mem_append_left _ h
          | cons c2 cs2 =>
              simpa [valuesAt, nodeAt, values, insert] using h
  | cons c cs ih =>
      cases t with
      | node vs ch =>
          cases hch : (Trie.node vs ch).child c with
          | none => rw [valuesAt_cons_none cs hch] at h; simp at h
          | some t0 =>
              rw [valuesAt_cons_some cs hch] at h
              simp only [child] at hch
              cases key2 with
              | nil =>
                  have hch2 : (Trie.node vs ch |>.insert [] v).child c = some t0 := by
                    simp [insert, child, hch]
                  rw [valuesAt_cons_some cs hch2]
                  exact h
              | cons c2 cs2 =>
                  by_cases hcc : c = c2
                  · subst hcc
                    have hch2 : (Trie.node vs ch |>.insert (c :: cs2) v).child c =
                        some (t0.insert cs2 v) := by
                      simp [insert, child, hch]
                    rw [valuesAt_cons_some cs hch2]
                    exact ih t0 cs2 h
                  · have hch2 : (Trie.node vs ch |>.insert (c2 :: cs2) v).child c =
                        some t0 := by
                      simp [insert, child, hcc, hch]
                    rw [valuesAt_cons_some cs hch2]
                    exact h

end Trie

/-! ## Seed indexing lemmas -/

theorem sub_ne_errChars {s : List Char} (hval : validSequence s) (i k : Nat) :
    (s.drop i).take k ≠ errChars := by
  intro heq
  have he : 'e' ∈ (s.drop i).take k := by
    rw [heq]
    simp [errChars]
  have he2 : 'e' ∈ s := List.drop_subset i s (List.take_subset k _ he)
  rcases hval 'e' he2 with h | h | h | h | h <;> exact absurd h (by decide)

theorem seedLoopF_valuesAt_mono (g : Genome) (k gid : Nat) (key : List Nat)
    (w : Nat × Nat) :
    ∀ fuel i t, w ∈ Trie.valuesAt t key →
      w ∈ Trie.valuesAt (seedLoopF g k gid fuel i t) key := by
  intro fuel
  induction fuel with
  | zero =>
      intro i t hw
      by_cases hs : (extractN g i k).getD errChars = errChars <;>
        simpa [seedLoopF, hs] using hw
  | succ fuel ih =>
      intro i t hw
      by_cases hs : (extractN g i k).getD errChars = errChars
      · simpa [seedLoopF, hs] using hw
      · rw [show seedLoopF g k gid (fuel + 1) i t =
            seedLoopF g k gid fuel (i + 1)
              (t.insert (((extractN g i k).getD errChars).map Char.toNat) (gid, i))
            from by rw [seedLoopF]; simp [hs]]
        exact ih (i + 1) _ (Trie.mem_valuesAt_insert_mono t key _ _ w hw)

/-- Every seed `(gid, i0)` with `i0 + k ≤ |sequence|` ends up stored at its
key's node, regardless of where the loop currently is (as long as the loop
has not passed `i0` yet). -/
theorem seedLoop_contains (g : Genome) (k gid : Nat) (hk : 1 ≤ k)
    (hval : validSequence g.sequence) (i0 : Nat)
    (hi0 : i0 + k ≤ g.sequence.length) :
    ∀ n i t, i0 - i = n → i ≤ i0 →
      (gid, i0) ∈ Trie.valuesAt (seedLoop g k gid i t)
        (((g.sequence.drop i0).take k).map Char.toNat) := by
  intro n
  induction n with
  | zero =>
      intro i t hn hle
      have hi : i = i0 := by omega
      subst hi
      rw [seedLoop_eq]
      have hx : extractN g i k = some ((g.sequence.drop i).take k) := by
        rw [extractN_eq, if_pos ⟨by omega, hi0⟩]
      rw [hx]
      simp only [Option.getD_some]
      rw [if_neg (sub_ne_errChars hval i k)]
      unfold seedLoop
      exact seedLoopF_valuesAt_mono g k gid _ _ _ (i + 1) _
        (Trie.mem_valuesAt_insert_self t _ _)
  | succ n ih =>
      intro i t hn hle
      have hilt : i < i0 := by omega
      rw [seedLoop_eq]
      have hx : extractN g i k = some ((g.sequence.drop i).take k) := by
        rw [extractN_eq, if_pos ⟨by omega, by omega⟩]
      rw [hx]
      simp only [Option.getD_some]
      rw [if_neg (sub_ne_errChars hval i k)]
      exact ih (i + 1) _ (by omega) (by omega)

/-- When the whole sequence is shorter than `k`, the very first extraction
fails and the loop inserts nothing. -/
theorem seedLoop_short (g : Genome) (k gid : Nat) (hshort : g.sequence.length < k)
    (t : Trie (Nat × Nat)) : seedLoop g k gid 0 t = t := by
  rw [seedLoop_eq]
  have hx : extractN g 0 k = none := by
    rw [extractN_eq, if_neg (by omega)]
  rw [hx]
  simp

/-! ## Trie invariant lemmas -/

theorem trieAll_empty {V : Type} (P : V → Prop) : TrieAll P Trie.emptyTrie :=
  TrieAll.node [] _ (by simp) (fun c t0 h => Option.noConfusion h)

theorem trieAll_values {V : Type} {P : V → Prop} {vs : List V}
    {ch : Nat → Option (Trie V)} (h : TrieAll P (Trie.node vs ch)) :
    ∀ v ∈ vs, P v := by
  cases h
  assumption

theorem trieAll_child {V : Type} {P : V → Prop} {t t0 : Trie V} {c : Nat}
    (h : TrieAll P t) (hch : t.child c = some t0) : TrieAll P t0 := by
  cases h with
  | node vs ch hv hc => exact hc c t0 hch

theorem trieAll_mono {V : Type} {P Q : V → Prop} (hPQ : ∀ v, P v → Q v)
    (t : Trie V) (ht : TrieAll P t) : TrieAll Q t := by
  induction ht with
  | node vs ch hv hch ih => exact TrieAll.node vs ch (fun v hvv => hPQ v (hv v hvv)) ih

theorem trieAll_insert {V : Type} {P : V → Prop} (key : List Nat) :
    ∀ (t : Trie V) (v : V), TrieAll P t → P v → TrieAll P (t.insert key v) := by
  induction key with
  | nil =>
      intro t v ht hv
      cases t with
      | node vs ch =>
          refine TrieAll.node _ _ ?_ (fun c t0 h => trieAll_child ht (c := c) h)
          intro x hx
          rcases List.mem_append.mp hx with hm | hm
          · exact trieAll_values ht x hm
          · rw [List.mem_singleton.mp hm]
            exact hv
  | cons c cs ih =>
      intro t v ht hv
      cases t with
      | node vs ch =>
          refine TrieAll.node _ _ (trieAll_values ht) ?_
          intro c0 t0 h0
          by_cases hc0 : c0 = c
          · subst hc0
            rw [if_pos rfl, Option.some_inj] at h0
            subst h0
            cases hch : ch c0 with
            | none => exact ih _ v (trieAll_empty P) hv
            | some t1 => exact ih _ v (trieAll_child ht (c := c0) hch) hv
          · rw [if_neg hc0] at h0
            exact trieAll_child ht (c := c0) h0

theorem trieAll_valuesAt {V : Type} {P : V → Prop} (p : List Nat) :
    ∀ (t : Trie V) (v : V), TrieAll P t → v ∈ t.valuesAt p → P v := by
  induction p with
  | nil =>
      intro t v ht hv
      cases t with
      | node vs ch =>
          rw [Trie.valuesAt_nil] at hv
          exact trieAll_values ht v hv
  | cons c cs ih =>
      intro t v ht hv
      cases hch : t.child c with
      | none =>
          rw [Trie.valuesAt_cons_none cs hch] at hv
          simp at hv
      | some t0 =>
          rw [Trie.valuesAt_cons_some cs hch] at hv
          exact ih t0 v (trieAll_child ht hch) hv

theorem trieAll_findHelper {V : Type} {P : V → Prop} (cs : List Nat) :
    ∀ (b : Bool) (t : Trie V) (v : V), TrieAll P t →
      v ∈ Trie.findHelper cs b (some t) → P v := by
  induction cs with
  | nil =>
      intro b t v ht hv
      rw [Trie.findHelper_nil] at hv
      cases t with
      | node vs ch => exact trieAll_values ht v hv
  | cons c cs ih =>
      intro b t v ht hv
      cases b with
      | true =>
          rw [Trie.findHelper_cons_true] at hv
          cases hch : t.child c with
          | none =>
              rw [hch, Trie.findHelper_none] at hv
              simp at hv
          | some t0 =>
              rw [hch] at hv
              exact ih true t0 v (trieAll_child ht hch) hv
      | false =>
          rw [Trie.findHelper_cons_false] at hv
          rcases List.mem_append.mp hv with hm | hm
          · cases hch : t.child c with
            | none =>
                rw [hch, Trie.findHelper_none] at hm
                simp at hm
            | some t0 =>
                rw [hch] at hm
                exact ih false t0 v (trieAll_child ht hch) hm
          · rw [List.mem_flatten] at hm
            obtain ⟨l, hl, hvl⟩ := hm
            rw [List.mem_map] at hl
            obtain ⟨i, _, rfl⟩ := hl
            cases hch : t.child i with
            | none =>
                rw [hch, Trie.findHelper_none] at hvl
                simp at hvl
            | some t0 =>
                rw [hch] at hvl
                exact ih true t0 v (trieAll_child ht hch) hvl

theorem trieAll_find {V : Type} {P : V → Prop} (t : Trie V) (key : List Nat)
    (ex : Bool) (v : V) (ht : TrieAll P t) (hv : v ∈ t.find key ex) : P v := by
  cases key with
  | nil =>
      cases t with
      | node vs ch => exact trieAll_values ht v hv
  | cons c cs =>
      cases hch : t.child c with
      | none =>
          rw [Trie.find_cons_none cs ex hch] at hv
          simp at hv
      | some t0 =>
          rw [Trie.find_cons_some cs ex hch] at hv
          exact trieAll_findHelper cs ex t0 v (trieAll_child ht hch) hv

theorem trieAll_seedLoopF (g : Genome) (k gid : Nat) {P : Nat × Nat → Prop}
    (hP : ∀ j, P (gid, j)) :
    ∀ fuel i t, TrieAll P t → TrieAll P (seedLoopF g k gid fuel i t) := by
  intro fuel
  induction fuel with
  | zero =>
      intro i t ht
      by_cases hs : (extractN g i k).getD errChars = errChars <;>
        simpa [seedLoopF, hs] using ht
  | succ fuel ih =>
      intro i t ht
      by_cases hs : (extractN g i k).getD errChars = errChars
      · simpa [seedLoopF, hs] using ht
      · rw [show seedLoopF g k gid (fuel + 1) i t =
            seedLoopF g k gid fuel (i + 1)
              (t.insert (((extractN g i k).getD errChars).map Char.toNat) (gid, i))
            from by rw [seedLoopF]; simp [hs]]
        exact ih (i + 1) _ (trieAll_insert _ t (gid, i) ht (hP i))

/-- Matcher states built by `addGenome` keep library length, minimum search
length and the trie's genome-number range in sync. -/
theorem foldl_addGenome_inv (gs : List Genome) :
    ∀ m : GenomeMatcher, TrieAll (gidInRange m.genomeLibrary.length) m.sequencedDNA →
      (gs.foldl addGenome m).minSearchLength = m.minSearchLength ∧
      (gs.foldl addGenome m).genomeLibrary = m.genomeLibrary ++ gs ∧
      TrieAll (gidInRange (m.genomeLibrary.length + gs.length))
        (gs.foldl addGenome m).sequencedDNA := by
  induction gs with
  | nil =>
      intro m hinv
      simpa using hinv
  | cons g gs ih =>
      intro m hinv
      rw [List.foldl_cons]
      have hlen : (addGenome m g).genomeLibrary.length = m.genomeLibrary.length + 1 := by
        simp [addGenome]
      have hinv2 : TrieAll (gidInRange (addGenome m g).genomeLibrary.length)
          (addGenome m g).sequencedDNA := by
        show TrieAll (gidInRange (m.genomeLibrary ++ [g]).length)
          (seedLoop g m.minSearchLength (m.genomeLibrary ++ [g]).length 0 m.sequencedDNA)
        unfold seedLoop
        refine trieAll_seedLoopF g m.minSearchLength (m.genomeLibrary ++ [g]).length
          (fun j => ⟨by simp, le_refl _⟩) _ 0 m.sequencedDNA
          (trieAll_mono (fun v hv => ⟨hv.1, ?_⟩) _ hinv)
        have h2 := hv.2
        simp only [List.length_append, List.length_singleton]
        omega
      obtain ⟨hk, hlib, htr⟩ := ih (addGenome m g) hinv2
      refine ⟨by rw [hk]; rfl, by rw [hlib]; simp [addGenome], ?_⟩
      have hcast : (addGenome m g).genomeLibrary.length + gs.length =
          m.genomeLibrary.length + (g :: gs).length := by
        rw [hlen]
        simp
        omega
      rwa [hcast] at htr

theorem buildMatcher_props (k : Nat) (gs : List Genome) :
    (buildMatcher k gs).minSearchLength = k ∧
    (buildMatcher k gs).genomeLibrary = gs ∧
    TrieAll (gidInRange gs.length) (buildMatcher k gs).sequencedDNA := by
  obtain ⟨h1, h2, h3⟩ := foldl_addGenome_inv gs ⟨k, [], Trie.emptyTrie⟩
    (trieAll_empty _)
  exact ⟨h1, by simpa using h2, by simpa using h3⟩

/-! ## Best-match fold lemmas -/

theorem lookupBest_none_iff (gid : Nat) (acc : List (Nat × DNAMatch)) :
    lookupBest gid acc = none ↔ gid ∉ acc.map Prod.fst := by
  induction acc with
  | nil => simp [lookupBest]
  | cons x xs ih =>
      obtain ⟨g0, d⟩ := x
      by_cases h : g0 = gid
      · subst h
        simp [lookupBest]
      · rw [lookupBest, if_neg h, ih]
        have hne : ¬ gid = g0 := fun hx => h hx.symm
        simp [hne]

theorem lookupBest_some_mem {gid : Nat} {acc : List (Nat × DNAMatch)}
    {d : DNAMatch} (h : lookupBest gid acc = some d) : (gid, d) ∈ acc := by
  induction acc with
  | nil => simp [lookupBest] at h
  | cons x xs ih =>
      obtain ⟨g0, d0⟩ := x
      by_cases hg : g0 = gid
      · subst hg
        rw [lookupBest, if_pos rfl, Option.some_inj] at h
        subst h
        exact List.mem_cons_self _ _
      · rw [lookupBest, if_neg hg] at h
        exact List.mem_cons_of_mem _ (ih h)

theorem lookupBest_of_mem_nodup {acc : List (Nat × DNAMatch)}
    (hnd : (acc.map Prod.fst).Nodup) {gid : Nat} {d : DNAMatch}
    (h : (gid, d) ∈ acc) : lookupBest gid acc = some d := by
  induction acc with
  | nil => simp at h
  | cons x xs ih =>
      obtain ⟨g0, d0⟩ := x
      rw [List.map_cons, List.nodup_cons] at hnd
      rcases List.mem_cons.mp h with heq | hmem
      · obtain ⟨hg, hd⟩ := Prod.mk.injEq .. ▸ heq
        rw [lookupBest, if_pos hg.symm, hd]
      · have hgin : gid ∈ xs.map Prod.fst :=
          List.mem_map.mpr ⟨(gid, d), hmem, rfl⟩
        have hne : g0 ≠ gid := fun hx => hnd.1 (hx ▸ hgin)
        rw [lookupBest, if_neg hne]
        exact ih hnd.2 hmem

theorem keys_insertBest (acc : List (Nat × DNAMatch)) (gid : Nat) (d : DNAMatch) :
    (insertBest acc gid d).map Prod.fst =
      if lookupBest gid acc = none then acc.map Prod.fst ++ [gid]
      else acc.map Prod.fst := by
  unfold insertBest
  cases h : lookupBest gid acc with
  | none => simp
  | some d0 =>
      simp only [if_neg (by simp : ¬ (some d0 = none))]
      by_cases hlen : d0.length < d.length
      · rw [if_pos hlen]
        have hfst : ∀ x : Nat × DNAMatch,
            (if x.1 = gid then (gid, d) else x).1 = x.1 := by
          intro x
          by_cases hx : x.1 = gid <;> simp [hx]
        simp [List.map_map, Function.comp_def, hfst]
      · rw [if_neg hlen]

theorem keys_insertBest_nodup (acc : List (Nat × DNAMatch)) (gid : Nat)
    (d : DNAMatch) (hnd : (acc.map Prod.fst).Nodup) :
    ((insertBest acc gid d).map Prod.fst).Nodup := by
  rw [keys_insertBest]
  split_ifs with h
  · have hnin := (lookupBest_none_iff gid acc).mp h
    simp [List.nodup_append, hnd, hnin]
  · exact hnd

theorem mem_insertBest {acc : List (Nat × DNAMatch)} {gid : Nat} {d : DNAMatch}
    {x : Nat × DNAMatch} (h : x ∈ insertBest acc gid d) :
    x ∈ acc ∨ x = (gid, d) := by
  unfold insertBest at h
  cases hl : lookupBest gid acc with
  | none =>
      rw [hl] at h
      rcases List.mem_append.mp h with hm | hm
      · exact Or.inl hm
      · exact Or.inr (by simpa using hm)
  | some d0 =>
      rw [hl] at h
      simp only [if_neg (by simp : ¬ (some d0 = none))] at h
      split_ifs at h with hlen
      · rcases List.mem_map.mp h with ⟨y, hy, hxy⟩
        by_cases hy1 : y.1 = gid
        · right
          rw [← hxy]
          simp [hy1]
        · left
          rw [← hxy]
          simpa [hy1] using hy
      · exact Or.inl h

theorem insertBest_dominates (acc : List (Nat × DNAMatch)) (gid0 : Nat)
    (d0 : DNAMatch) (hnd : (acc.map Prod.fst).Nodup) (g : Nat) (d : DNAMatch)
    (h : (g, d) ∈ acc) :
    ∃ d2, (g, d2) ∈ insertBest acc gid0 d0 ∧ d.length ≤ d2.length := by
  unfold insertBest
  cases hl : lookupBest gid0 acc with
  | none => exact ⟨d, List.mem_append_left _ h, le_refl _⟩
  | some d1 =>
      simp only [if_neg (by simp : ¬ (some d1 = none))]
      by_cases hlen : d1.length < d0.length
      · rw [if_pos hlen]
        by_cases hg : g = gid0
        · subst hg
          have hd1 : d1 = d := by
            have := lookupBest_of_mem_nodup hnd h
            rw [hl, Option.some_inj] at this
            exact this
          subst hd1
          exact ⟨d0, List.mem_map.mpr ⟨(g, d1), h, by simp⟩, by omega⟩
        · exact ⟨d, List.mem_map.mpr ⟨(g, d), h, by simp [hg]⟩, le_refl _⟩
      · rw [if_neg hlen]
        exact ⟨d, h, le_refl _⟩

theorem insertBest_self (acc : List (Nat × DNAMatch)) (gid0 : Nat) (d0 : DNAMatch) :
    ∃ d2, (gid0, d2) ∈ insertBest acc gid0 d0 ∧ d0.length ≤ d2.length := by
  unfold insertBest
  cases hl : lookupBest gid0 acc with
  | none => exact ⟨d0, List.mem_append_right _ (by simp), le_refl _⟩
  | some d1 =>
      simp only [if_neg (by simp : ¬ (some d1 = none))]
      by_cases hlen : d1.length < d0.length
      · rw [if_pos hlen]
        exact ⟨d0, List.mem_map.mpr ⟨(gid0, d1), lookupBest_some_mem hl, by simp⟩,
          le_refl _⟩
      · rw [if_neg hlen]
        exact ⟨d1, lookupBest_some_mem hl, by omega⟩

theorem foldl_insertBest_keys_nodup (cands : List (Nat × DNAMatch)) :
    ∀ acc, (acc.map Prod.fst).Nodup →
      ((cands.foldl (fun a gd => insertBest a gd.1 gd.2) acc).map Prod.fst).Nodup := by
  induction cands with
  | nil => intro acc hnd; simpa using hnd
  | cons c cs ih =>
      intro acc hnd
      rw [List.foldl_cons]
      exact ih _ (keys_insertBest_nodup acc c.1 c.2 hnd)

theorem foldl_insertBest_mem (cands : List (Nat × DNAMatch)) :
    ∀ acc x, x ∈ cands.foldl (fun a gd => insertBest a gd.1 gd.2) acc →
      x ∈ acc ∨ x ∈ cands := by
  induction cands with
  | nil => intro acc x h; exact Or.inl (by simpa using h)
  | cons c cs ih =>
      intro acc x h
      rw [List.foldl_cons] at h
      rcases ih _ x h with hm | hm
      · rcases mem_insertBest hm with hm2 | hm2
        · exact Or.inl hm2
        · exact Or.inr (by simp [hm2])
      · exact Or.inr (List.mem_cons_of_mem _ hm)

theorem foldl_insertBest_max (cands : List (Nat × DNAMatch)) :
    ∀ acc, (acc.map Prod.fst).Nodup →
      ∀ g d, (g, d) ∈ cands.foldl (fun a gd => insertBest a gd.1 gd.2) acc →
        (∀ dx, (g, dx) ∈ acc → dx.length ≤ d.length) ∧
        (∀ dx, (g, dx) ∈ cands → dx.length ≤ d.length) := by
  induction cands with
  | nil =>
      intro acc hnd g d h
      rw [List.foldl_nil] at h
      refine ⟨?_, by simp⟩
      intro dx hdx
      have h1 := lookupBest_of_mem_nodup hnd h
      have h2 := lookupBest_of_mem_nodup hnd hdx
      rw [h1, Option.some_inj] at h2
      rw [h2]
  | cons c cs ih =>
      intro acc hnd g d h
      obtain ⟨g0, d0⟩ := c
      rw [List.foldl_cons] at h
      have hnd2 := keys_insertBest_nodup acc g0 d0 hnd
      obtain ⟨ha, hc⟩ := ih _ hnd2 g d h
      constructor
      · intro dx hdx
        obtain ⟨d2, hd2mem, hd2le⟩ := insertBest_dominates acc g0 d0 hnd g dx hdx
        exact le_trans hd2le (ha d2 hd2mem)
      · intro dx hdx
        rcases List.mem_cons.mp hdx with heq | hmem
        · obtain ⟨hg, hd⟩ := Prod.mk.injEq .. ▸ heq
          subst hg
          subst hd
          obtain ⟨d2, hd2mem, hd2le⟩ := insertBest_self acc g dx
          exact le_trans hd2le (ha d2 hd2mem)
        · exact hc dx hmem

/-! ## Candidate lemmas -/

theorem mem_cands_iff (m : GenomeMatcher) (frag : List Char) (L : Nat)
    (ex : Bool) (g : Nat) (d : DNAMatch) :
    (g, d) ∈ (seedsOf m frag ex).filterMap (candidateFor m frag L ex) ↔
      ∃ s ∈ seedsOf m frag ex, s.1 = g ∧ L ≤ extLen m frag ex s ∧
        d = ⟨(genomeOf m g).name, extLen m frag ex s, s.2⟩ := by
  rw [List.mem_filterMap]
  constructor
  · rintro ⟨s, hs, hc⟩
    unfold candidateFor at hc
    split_ifs at hc with hlt
    rw [Option.some_inj] at hc
    obtain ⟨hg, hd⟩ := Prod.mk.injEq .. ▸ hc
    subst hg
    exact ⟨s, hs, rfl, not_lt.mp hlt, hd.symm⟩
  · rintro ⟨s, hs, hg, hle, hd⟩
    subst hg
    subst hd
    refine ⟨s, hs, ?_⟩
    unfold candidateFor
    rw [if_neg (not_lt.mpr hle)]

theorem mem_admissLens_iff (m : GenomeMatcher) (frag : List Char) (L : Nat)
    (ex : Bool) (g : Nat) (l : Nat) :
    l ∈ admissLens m frag L ex g ↔
      ∃ s ∈ seedsOf m frag ex, s.1 = g ∧ L ≤ extLen m frag ex s ∧
        l = extLen m frag ex s := by
  unfold admissLens
  rw [List.mem_map]
  constructor
  · rintro ⟨s, hs, rfl⟩
    rw [List.mem_filter, decide_eq_true_eq] at hs
    exact ⟨s, hs.1, hs.2.1, hs.2.2, rfl⟩
  · rintro ⟨s, hmem, hg, hle, rfl⟩
    refine ⟨s, List.mem_filter.mpr ⟨hmem, ?_⟩, rfl⟩
    rw [decide_eq_true_eq]
    exact ⟨hg, hle⟩

theorem findGenomes_true_eq {m : GenomeMatcher} {frag : List Char} {L : Nat}
    {ex : Bool} {ms0 ms : List DNAMatch}
    (h : findGenomesWithThisDNA m frag L ex ms0 = (true, ms)) :
    ms = (bestOf m frag L ex).map Prod.snd := by
  unfold findGenomesWithThisDNA at h
  split_ifs at h with h1 h2 h3 h4
  · exact absurd (congrArg Prod.fst h) (by simp)
  · exact absurd (congrArg Prod.fst h) (by simp)
  · exact absurd (congrArg Prod.fst h) (by simp)
  · exact absurd (congrArg Prod.fst h) (by simp)
  · have h5 := congrArg Prod.snd h
    simpa using h5.symm

/-! ## Name-uniqueness and counting lemmas -/

theorem nodup_map_of_nodup_map {α β γ : Type} (l : List α) (f : α → β) (g : α → γ)
    (hnd : (l.map f).Nodup)
    (hinj : ∀ x ∈ l, ∀ y ∈ l, g x = g y → f x = f y) : (l.map g).Nodup := by
  induction l with
  | nil => simp
  | cons a l ih =>
      rw [List.map_cons, List.nodup_cons] at hnd ⊢
      refine ⟨?_, ih hnd.2 (fun x hx y hy => hinj x (by simp [hx]) y (by simp [hy]))⟩
      intro hmem
      rcases List.mem_map.mp hmem with ⟨x, hx, hgx⟩
      have hfx : f a = f x := hinj a (by simp) x (by simp [hx]) hgx.symm
      exact hnd.1 (List.mem_map.mpr ⟨x, hx, hfx.symm⟩)

theorem best_mem_props (m : GenomeMatcher) (frag : List Char) (L : Nat)
    (ex : Bool) {g : Nat} {d : DNAMatch} (h : (g, d) ∈ bestOf m frag L ex) :
    d.genomeName = (genomeOf m g).name ∧ ∃ s ∈ seedsOf m frag ex, s.1 = g := by
  unfold bestOf at h
  rcases foldl_insertBest_mem _ [] (g, d) h with hm | hm
  · simp at hm
  · rw [mem_cands_iff] at hm
    obtain ⟨s, hs, hg, hle, hd⟩ := hm
    exact ⟨by rw [hd], s, hs, hg⟩

theorem seeds_gid_range (m : GenomeMatcher)
    (hinv : TrieAll (gidInRange m.genomeLibrary.length) m.sequencedDNA)
    (frag : List Char) (ex : Bool) {s : Nat × Nat}
    (hs : s ∈ seedsOf m frag ex) :
    1 ≤ s.1 ∧ s.1 ≤ m.genomeLibrary.length :=
  trieAll_find (P := gidInRange m.genomeLibrary.length) _ _ _ _ hinv hs

theorem genomeOf_name_inj (m : GenomeMatcher)
    (hnd : (m.genomeLibrary.map Genome.name).Nodup) {g1 g2 : Nat}
    (h1a : 1 ≤ g1) (h1b : g1 ≤ m.genomeLibrary.length)
    (h2a : 1 ≤ g2) (h2b : g2 ≤ m.genomeLibrary.length)
    (hname : (genomeOf m g1).name = (genomeOf m g2).name) : g1 = g2 := by
  have hi1 : g1 - 1 < m.genomeLibrary.length := by omega
  have hi2 : g2 - 1 < m.genomeLibrary.length := by omega
  have hv1 : genomeOf m g1 = m.genomeLibrary.get ⟨g1 - 1, hi1⟩ := by
    unfold genomeOf
    exact List.getD_eq_getElem _ _ hi1
  have hv2 : genomeOf m g2 = m.genomeLibrary.get ⟨g2 - 1, hi2⟩ := by
    unfold genomeOf
    exact List.getD_eq_getElem _ _ hi2
  rw [hv1, hv2] at hname
  have hmap1 : (m.genomeLibrary.map Genome.name).get ⟨g1 - 1, by simpa using hi1⟩ =
      (m.genomeLibrary.get ⟨g1 - 1, hi1⟩).name := by
    simp
  have hmap2 : (m.genomeLibrary.map Genome.name).get ⟨g2 - 1, by simpa using hi2⟩ =
      (m.genomeLibrary.get ⟨g2 - 1, hi2⟩).name := by
    simp
  have heq : (m.genomeLibrary.map Genome.name).get ⟨g1 - 1, by simpa using hi1⟩ =
      (m.genomeLibrary.map Genome.name).get ⟨g2 - 1, by simpa using hi2⟩ := by
    rw [hmap1, hmap2]
    exact hname
  have := (List.Nodup.get_inj_iff hnd).mp heq
  have hfin : g1 - 1 = g2 - 1 := congrArg Fin.val this
  omega

theorem findGenomes_names_nodup (m : GenomeMatcher)
    (hnd : (m.genomeLibrary.map Genome.name).Nodup)
    (hinv : TrieAll (gidInRange m.genomeLibrary.length) m.sequencedDNA)
    (frag : List Char) (L : Nat) (ex : Bool) :
    (((findGenomesWithThisDNA m frag L ex []).2).map DNAMatch.genomeName).Nodup := by
  rcases hres : findGenomesWithThisDNA m frag L ex [] with ⟨b, ms⟩
  cases b with
  | false =>
      have hms : ms = [] := by
        unfold findGenomesWithThisDNA at hres
        split_ifs at hres with h1 h2 h3 h4
        · exact (congrArg Prod.snd hres).symm
        · exact (congrArg Prod.snd hres).symm
        · exact (congrArg Prod.snd hres).symm
        · have hsnd : (bestOf m frag L ex).map Prod.snd = ms := by
            simpa using congrArg Prod.snd hres
          rw [← hsnd]
          exact List.length_eq_zero.mp h4
        · exact absurd (congrArg Prod.fst hres) (by simp)
      subst hms
      simp
  | true =>
      have hms := findGenomes_true_eq hres
      subst hms
      rw [List.map_map]
      have hkeys : ((bestOf m frag L ex).map Prod.fst).Nodup := by
        unfold bestOf
        exact foldl_insertBest_keys_nodup _ [] (by simp)
      refine nodup_map_of_nodup_map _ Prod.fst _ hkeys ?_
      intro x hx y hy hgxy
      obtain ⟨hxn, sx, hsx, hsxg⟩ := best_mem_props m frag L ex
        (show (x.1, x.2) ∈ bestOf m frag L ex from hx)
      obtain ⟨hyn, sy, hsy, hsyg⟩ := best_mem_props m frag L ex
        (show (y.1, y.2) ∈ bestOf m frag L ex from hy)
      have hxr := seeds_gid_range m hinv frag ex hsx
      have hyr := seeds_gid_range m hinv frag ex hsy
      rw [hsxg] at hxr
      rw [hsyg] at hyr
      have hname : (genomeOf m x.1).name = (genomeOf m y.1).name := by
        rw [← hxn, ← hyn]
        simpa using hgxy
      exact genomeOf_name_inj m hnd hxr.1 hxr.2 hyr.1 hyr.2 hname

theorem foldl_bump_unchanged (ms : List DNAMatch) :
    ∀ (c : List Char → Nat) (nm : List Char),
      nm ∉ ms.map DNAMatch.genomeName →
      (ms.foldl (fun cc d => bump cc d.genomeName) c) nm = c nm := by
  induction ms with
  | nil => intro c nm _; rfl
  | cons d ms ih =>
      intro c nm h
      rw [List.map_cons] at h
      have h1 : nm ≠ d.genomeName := fun hx => h (by simp [hx])
      have h2 : nm ∉ ms.map DNAMatch.genomeName := fun hx => h (by simp [hx])
      rw [List.foldl_cons, ih _ nm h2]
      unfold bump
      rw [if_neg h1]

theorem foldl_bump_le (ms : List DNAMatch) :
    ∀ (c : List Char → Nat) (nm : List Char),
      (ms.map DNAMatch.genomeName).Nodup →
      (ms.foldl (fun cc d => bump cc d.genomeName) c) nm ≤ c nm + 1 := by
  induction ms with
  | nil => intro c nm _; exact Nat.le_succ _
  | cons d ms ih =>
      intro c nm hnd
      rw [List.map_cons, List.nodup_cons] at hnd
      rw [List.foldl_cons]
      by_cases hm : nm = d.genomeName
      · subst hm
        rw [foldl_bump_unchanged ms _ d.genomeName hnd.1]
        unfold bump
        rw [if_pos rfl]
      · calc (ms.foldl (fun cc d => bump cc d.genomeName) (bump c d.genomeName)) nm
            ≤ (bump c d.genomeName) nm + 1 := ih _ nm hnd.2
          _ = c nm + 1 := by unfold bump; rw [if_neg hm]

theorem windowLoopF_zero (m : GenomeMatcher) (q : Genome) (fm : Nat) (ex : Bool)
    (S i : Nat) (c : List Char → Nat) : windowLoopF m q fm ex S 0 i c = c := by
  rw [windowLoopF]
  split_ifs <;> rfl

theorem windowLoopF_succ (m : GenomeMatcher) (q : Genome) (fm : Nat) (ex : Bool)
    (S fuel i : Nat) (c : List Char → Nat) :
    windowLoopF m q fm ex S (fuel + 1) i c =
      if S ≤ i then c
      else if (extractN q (i * fm) fm).getD errChars = errChars then c
      else windowLoopF m q fm ex S fuel (i + 1)
        (((findGenomesWithThisDNA m ((extractN q (i * fm) fm).getD errChars)
            fm ex []).2).foldl (fun cc d => bump cc d.genomeName) c) := by
  by_cases hle : S ≤ i
  · rw [if_pos hle, windowLoopF, if_pos hle]
  · rw [if_neg hle]
    conv_lhs => rw [windowLoopF]
    rw [if_neg hle]

theorem windowLoopF_count_le (m : GenomeMatcher)
    (hnd : (m.genomeLibrary.map Genome.name).Nodup)
    (hinv : TrieAll (gidInRange m.genomeLibrary.length) m.sequencedDNA)
    (q : Genome) (fm : Nat) (ex : Bool) (S : Nat) :
    ∀ fuel i (c : List Char → Nat) (nm : List Char),
      windowLoopF m q fm ex S fuel i c nm ≤ c nm + (S - i) := by
  intro fuel
  induction fuel with
  | zero =>
      intro i c nm
      rw [windowLoopF_zero]
      omega
  | succ fuel ih =>
      intro i c nm
      rw [windowLoopF_succ]
      split_ifs with h1 h2
      · omega
      · omega
      · have hstep := foldl_bump_le
          ((findGenomesWithThisDNA m ((extractN q (i * fm) fm).getD errChars)
            fm ex []).2) c nm
          (findGenomes_names_nodup m hnd hinv _ fm ex)
        have hrec := ih (i + 1)
          (((findGenomesWithThisDNA m ((extractN q (i * fm) fm).getD errChars)
            fm ex []).2).foldl (fun cc d => bump cc d.genomeName) c) nm
        omega

theorem relatedCounts_le (m : GenomeMatcher)
    (hnd : (m.genomeLibrary.map Genome.name).Nodup)
    (hinv : TrieAll (gidInRange m.genomeLibrary.length) m.sequencedDNA)
    (q : Genome) (fm : Nat) (ex : Bool) (nm : List Char) :
    relatedCounts m q fm ex nm ≤ q.sequence.length / fm := by
  unfold relatedCounts windowLoop
  have := windowLoopF_count_le m hnd hinv q fm ex (q.sequence.length / fm)
    (q.sequence.length / fm - 0) 0 (fun _ => 0) nm
  simpa using this

theorem mem_insertSorted (gm x : GenomeMatch) (l : List GenomeMatch) :
    x ∈ insertSorted gm l ↔ x = gm ∨ x ∈ l := by
  induction l with
  | nil => simp [insertSorted]
  | cons y l ih =>
      by_cases h : genomeMatchCompare gm y
      · simp [insertSorted, h, or_comm, or_assoc, or_left_comm]
      · simp only [insertSorted, h]
        simp only [Bool.false_eq_true, if_false, List.mem_cons, ih]
        tauto

theorem mem_sortResults (x : GenomeMatch) (l : List GenomeMatch) :
    x ∈ sortResults l ↔ x ∈ l := by
  induction l with
  | nil => simp [sortResults]
  | cons y l ih =>
      simp only [sortResults, mem_insertSorted, List.mem_cons, ih]

/-! ## Claim theorems -/

/-- C1: for every non-empty key `c :: cs`, `Trie::find(key, exactOnly)`
returns exactly the values stored at trie nodes reached by a root path of the
key's length whose first character equals `c` exactly and which, past
position 0, differs from the key in at most one position when `exactOnly` is
false and in zero positions when it is true; if the root has no child for `c`
the result is empty.  (Key characters are bytes, i.e. below 256.) -/
theorem C1_trie_find_traversal {V : Type} (t : Trie V) (c : Nat) (cs : List Nat)
    (exactMatchOnly : Bool) (v : V) (hcs : ∀ x ∈ cs, x < 256) :
    (v ∈ t.find (c :: cs) exactMatchOnly ↔
      ∃ q, q.length = cs.length ∧ (∀ x ∈ q, x < 256) ∧
        countMismatch cs q ≤ (if exactMatchOnly then 0 else 1) ∧
        v ∈ t.valuesAt (c :: q)) ∧
    (t.child c = none → t.find (c :: cs) exactMatchOnly = []) :=
  ⟨Trie.mem_find t c cs exactMatchOnly v hcs,
   fun h => Trie.find_cons_none cs exactMatchOnly h⟩

theorem C1_trie_find_traversal_witness :
    (5 : Nat) ∈ (Trie.emptyTrie.insert [65, 67] (5 : Nat)).find [65, 67] true :=
  ((C1_trie_find_traversal (Trie.emptyTrie.insert [65, 67] (5 : Nat)) 65 [67]
      true 5 (by decide)).1).mpr
    ⟨[67], by decide, by decide, by decide, by decide⟩

/-- C5: after `addGenome g` on a matcher with minimum search length `k ≥ 1`
and a genome whose sequence satisfies the data-model base invariant: for
every offset `i` with `i + k ≤ |sequence|` an exact trie lookup of the
`k`-length substring starting at `i` contains the seed `(gid, i)` where `gid`
is the new genome's 1-based number; and when the sequence is shorter than `k`
no seeds are inserted although the genome is still appended to the library. -/
theorem C5_addGenome_seed_completeness (m : GenomeMatcher) (g : Genome)
    (hk : 1 ≤ m.minSearchLength) (hval : validSequence g.sequence) :
    (∀ i, i + m.minSearchLength ≤ g.sequence.length →
        (m.genomeLibrary.length + 1, i) ∈
          (addGenome m g).sequencedDNA.find
            (((g.sequence.drop i).take m.minSearchLength).map Char.toNat) true) ∧
    (g.sequence.length < m.minSearchLength →
        (addGenome m g).sequencedDNA = m.sequencedDNA ∧
        (addGenome m g).genomeLibrary = m.genomeLibrary ++ [g]) := by
  constructor
  · intro i hi
    rw [Trie.find_exact_eq]
    show (m.genomeLibrary.length + 1, i) ∈
      Trie.valuesAt (seedLoop g m.minSearchLength (m.genomeLibrary ++ [g]).length 0
        m.sequencedDNA) _
    rw [List.length_append, List.length_singleton]
    exact seedLoop_contains g m.minSearchLength (m.genomeLibrary.length + 1) hk hval
      i hi i 0 m.sequencedDNA (by omega) (by omega)
  · intro hshort
    refine ⟨?_, rfl⟩
    show seedLoop g m.minSearchLength (m.genomeLibrary ++ [g]).length 0
      m.sequencedDNA = m.sequencedDNA
    exact seedLoop_short g m.minSearchLength _ hshort m.sequencedDNA

theorem C5_addGenome_seed_completeness_witness :
    ((1 : Nat), (0 : Nat)) ∈
      (addGenome ⟨3, [], Trie.emptyTrie⟩ ⟨['G'], ['A', 'C', 'G', 'T']⟩).sequencedDNA.find
        ((((['A', 'C', 'G', 'T'] : List Char).drop 0).take 3).map Char.toNat) true :=
  (C5_addGenome_seed_completeness ⟨3, [], Trie.emptyTrie⟩ ⟨['G'], ['A', 'C', 'G', 'T']⟩
      (by decide) (by unfold validSequence; decide)).1 0 (by decide)

/-- C10 (implicit): deduplication is by internal genome id, not name — with
two distinct library genomes added under the same name `"P"`, a single
successful `findGenomesWithThisDNA` call returns two `DNAMatch` entries whose
`genomeName` fields are equal. -/
theorem C10_dedup_by_id_not_name :
    findGenomesWithThisDNA
        (buildMatcher 3 [⟨['P'], ['A', 'A', 'A']⟩, ⟨['P'], ['A', 'A', 'A']⟩])
        ['A', 'A', 'A'] 3 true [] =
      (true, [⟨['P'], 3, 0⟩, ⟨['P'], 3, 0⟩]) := by decide

/-- C3 is violated by the code: on extraction failure the extension loop
breaks without decrementing `actualLength`, so the exact-mode call below
returns a `DNAMatch` of length 4 at position 0 in a genome of length 3 — the
substring `[pos, pos + len)` does not exist (`extract` fails), so it cannot
equal `frag[0 .. len)`. -/
theorem C3_exact_overhang_failing_input :
    findGenomesWithThisDNA (buildMatcher 3 [⟨['G'], ['A', 'C', 'G']⟩])
        ['A', 'C', 'G', 'T'] 3 true [] =
      (true, [⟨['G'], 4, 0⟩]) ∧
    (⟨['G'], ['A', 'C', 'G']⟩ : Genome).sequence.length < 0 + 4 ∧
    Genome.extract ⟨['G'], ['A', 'C', 'G']⟩ 0 4 = none := by decide

/-- C2 is violated by the code at the same off-by-one: with
`exactOnly = false` the call below returns a `DNAMatch` of length 4 at
position 0 in a genome of length 3, so there is no library substring
`[pos, pos + len)` to compare with `frag[0 .. len)`. -/
theorem C2_approx_overhang_failing_input :
    findGenomesWithThisDNA (buildMatcher 3 [⟨['G'], ['A', 'C', 'G']⟩])
        ['A', 'C', 'G', 'T'] 3 false [] =
      (true, [⟨['G'], 4, 0⟩]) ∧
    (⟨['G'], ['A', 'C', 'G']⟩ : Genome).sequence.length < 0 + 4 ∧
    Genome.extract ⟨['G'], ['A', 'C', 'G']⟩ 0 4 = none := by
  set_option maxRecDepth 100000 in decide

/-- C8 as stated is false: at `position = sequence.length` with `length = 0`
the claim's condition `position ≥ 0 ∧ position + length ≤ |sequence|` holds,
yet `extract` fails (its first check also requires
`position < sequence.length`). -/
theorem C8_extract_boundary_counterexample :
    Genome.extract ⟨['n'], ['A']⟩ 1 0 = none ∧
    ((0 : Int) ≤ 1 ∧ (1 : Int) + 0 ≤ (⟨['n'], ['A']⟩ : Genome).sequence.length) := by
  decide

/-- C8 amended: `extract(position, length)` succeeds iff `0 ≤ position`,
`position < |sequence|`, and `0 ≤ position + length ≤ |sequence|` (the sum is
an `int` compared against a `size_t`, so a negative sum also fails); on
success the result is the substring `[position, position + length)` when
`length ≥ 0`, and the whole suffix from `position` when `length < 0` (the
`int` length wraps to a huge `size_t` count in `substr`). -/
theorem C8_extract_characterisation (g : Genome) (position length : Int) :
    ((g.extract position length).isSome ↔
      0 ≤ position ∧ position < g.sequence.length ∧
      0 ≤ position + length ∧ position + length ≤ g.sequence.length) ∧
    (∀ s, g.extract position length = some s →
      (0 ≤ length → s = (g.sequence.drop position.toNat).take length.toNat) ∧
      (length < 0 → s = g.sequence.drop position.toNat)) :=
  ⟨extract_isSome_iff g position length,
   fun s h => extract_some_val g position length s h⟩

theorem C8_extract_characterisation_witness :
    ((⟨['n'], ['A', 'C']⟩ : Genome).extract 0 2).isSome :=
  ((C8_extract_characterisation ⟨['n'], ['A', 'C']⟩ 0 2).1).mpr (by decide)

/-- C9 as stated is false: the constructor performs no uppercase
normalisation (only the file loader does), so a genome constructed from a
lowercase sequence yields lowercase characters from `extract`. -/
theorem C9_lowercase_counterexample :
    Genome.extract ⟨['n'], ['a', 'c']⟩ 0 2 = some ['a', 'c'] ∧
    ('a'.isUpper = false) := by decide

/-- C9 amended: the constructor stores the sequence exactly as given (the
loader, not the constructor, uppercases), so every character a successful
`extract` returns is a character of the sequence passed to the constructor,
unchanged. -/
theorem C9_construction_stores_verbatim (nm seq : List Char) (p l : Int)
    (r : List Char) (h : Genome.extract ⟨nm, seq⟩ p l = some r) :
    ∀ c ∈ r, c ∈ seq := by
  obtain ⟨hpos, hneg⟩ := extract_some_val ⟨nm, seq⟩ p l r h
  intro c hc
  by_cases hl : 0 ≤ l
  · rw [hpos hl] at hc
    exact List.drop_subset _ _ (List.take_subset _ _ hc)
  · rw [hneg (by omega)] at hc
    exact List.drop_subset _ _ hc

theorem C9_construction_stores_verbatim_witness :
    'a' ∈ (['a', 'c'] : List Char) :=
  C9_construction_stores_verbatim ['n'] ['a', 'c'] 0 2 ['a', 'c']
    (by decide) 'a' (by decide)

/-- C7 as stated is false: the precondition checks of
`findGenomesWithThisDNA` run before `matches.clear()`, so a failing call
leaves whatever the caller's vector already contained — here a non-empty
vector stays non-empty. -/
theorem C7_container_not_cleared_counterexample :
    findGenomesWithThisDNA (buildMatcher 1 []) ['A'] 2 false [⟨['X'], 9, 9⟩] =
      (false, [⟨['X'], 9, 9⟩]) := by decide

/-- C7 amended: every failing call returns `false`; the two precondition
failures of `findGenomesWithThisDNA` (`|frag| < L`, `L < k`) and the `m < k`
failure of `findRelatedGenomes` leave the caller's container unchanged (hence
empty only if it was already empty), while the zero-window failure of
`findRelatedGenomes` (which runs after `results.clear()`) returns an empty
container. -/
theorem C7_failure_paths (m : GenomeMatcher) (frag : List Char) (L : Nat)
    (ex : Bool) (ms0 : List DNAMatch) (q : Genome) (fm : Nat) (τ : ℚ)
    (rs0 : List GenomeMatch) :
    (frag.length < L ∨ L < m.minSearchLength →
        findGenomesWithThisDNA m frag L ex ms0 = (false, ms0)) ∧
    (fm < m.minSearchLength →
        findRelatedGenomes m q fm ex τ rs0 = (false, rs0)) ∧
    (m.minSearchLength ≤ fm → q.sequence.length / fm = 0 →
        findRelatedGenomes m q fm ex τ rs0 = (false, [])) := by
  refine ⟨?_, ?_, ?_⟩
  · intro hpre
    unfold findGenomesWithThisDNA
    rcases hpre with h | h
    · rw [if_pos h]
    · by_cases h1 : frag.length < L
      · rw [if_pos h1]
      · rw [if_neg h1, if_pos h]
  · intro hpre
    unfold findRelatedGenomes
    rw [if_pos hpre]
  · intro hk hS
    unfold findRelatedGenomes
    rw [if_neg (by omega), if_pos hS]

theorem C7_failure_paths_witness :
    findGenomesWithThisDNA (buildMatcher 2 []) ['A'] 1 false [] = (false, []) :=
  (C7_failure_paths (buildMatcher 2 []) ['A'] 1 false [] ⟨[], []⟩ 0 0 []).1
    (Or.inr (by decide))

/-- C4: every successful `findGenomesWithThisDNA` call returns the values of
a per-genome map keyed by genome number whose keys are pairwise distinct (at
most one `DNAMatch` per library genome), and each stored match's length is
the maximum of the admissible extension lengths over all seed hits the trie
returned for that genome. -/
theorem C4_per_genome_maximality (m : GenomeMatcher) (frag : List Char)
    (L : Nat) (ex : Bool) (ms0 ms : List DNAMatch)
    (h : findGenomesWithThisDNA m frag L ex ms0 = (true, ms)) :
    ms = (bestOf m frag L ex).map Prod.snd ∧
    ((bestOf m frag L ex).map Prod.fst).Nodup ∧
    ∀ gd ∈ bestOf m frag L ex,
      gd.2.length ∈ admissLens m frag L ex gd.1 ∧
      ∀ l ∈ admissLens m frag L ex gd.1, l ≤ gd.2.length := by
  refine ⟨findGenomes_true_eq h, foldl_insertBest_keys_nodup _ [] (by simp), ?_⟩
  rintro ⟨g, d⟩ hgd
  unfold bestOf at hgd
  constructor
  · have hsrc := foldl_insertBest_mem _ [] (g, d) hgd
    rcases hsrc with hm | hm
    · simp at hm
    · rw [mem_cands_iff] at hm
      obtain ⟨s, hs, hg, hle, hd⟩ := hm
      rw [mem_admissLens_iff]
      exact ⟨s, hs, hg, hle, by rw [hd]⟩
  · intro l hl
    rw [mem_admissLens_iff] at hl
    obtain ⟨s, hs, hg, hle, rfl⟩ := hl
    have hcand : (g, (⟨(genomeOf m g).name, extLen m frag ex s, s.2⟩ : DNAMatch)) ∈
        (seedsOf m frag ex).filterMap (candidateFor m frag L ex) := by
      rw [mem_cands_iff]
      exact ⟨s, hs, hg, hle, rfl⟩
    have hmax := (foldl_insertBest_max _ [] (by simp) g d hgd).2 _ hcand
    simpa using hmax

theorem C4_per_genome_maximality_witness :
    ((bestOf (buildMatcher 3 [⟨['X'], ['A', 'A', 'A', 'A']⟩]) ['A', 'A', 'A'] 3
        true).map Prod.fst).Nodup :=
  (C4_per_genome_maximality (buildMatcher 3 [⟨['X'], ['A', 'A', 'A', 'A']⟩])
      ['A', 'A', 'A'] 3 true [] [⟨['X'], 3, 0⟩] (by decide)).2.1

theorem dupMatcher_related_eval :
    findRelatedGenomes dupMatcher queryAAA 3 true 50 [] =
      (true, [⟨['P'], 200⟩, ⟨['P'], 200⟩]) := by
  have hp : relatedPercent dupMatcher queryAAA 3 true ['P'] = 200 := by
    unfold relatedPercent
    rw [show relatedCounts dupMatcher queryAAA 3 true ['P'] = 2 from by decide,
      show queryAAA.sequence.length / 3 = 1 from by decide]
    norm_num
  have hres : relatedResults dupMatcher queryAAA 3 true 50 =
      [⟨['P'], 200⟩, ⟨['P'], 200⟩] := by
    unfold relatedResults
    rw [show dupMatcher.genomeLibrary =
      [⟨['P'], ['A', 'A', 'A']⟩, ⟨['P'], ['A', 'A', 'A']⟩] from by decide]
    simp only [List.filterMap_cons, List.filterMap_nil]
    rw [hp]
    norm_num
  unfold findRelatedGenomes
  rw [if_neg (by decide : ¬ (3 < dupMatcher.minSearchLength))]
  rw [if_neg (by decide : ¬ (queryAAA.sequence.length / 3 = 0))]
  rw [hres]
  rw [if_neg (by decide :
    ¬ (([⟨['P'], (200 : ℚ)⟩, ⟨['P'], 200⟩] : List GenomeMatch).length = 0))]
  rw [show sortResults [⟨['P'], (200 : ℚ)⟩, ⟨['P'], 200⟩] =
      [⟨['P'], 200⟩, ⟨['P'], 200⟩] from by
    simp [sortResults, insertSorted, genomeMatchCompare]]

/-- C6 as stated is false: window hits are counted by genome *name*, so with
two library genomes both named `"P"` matching every window the computed
percentage is 200, which the threshold filter happily emits (twice — once per
library genome with that name) although it exceeds 100. -/
theorem C6_percent_above_100_counterexample :
    findRelatedGenomes dupMatcher queryAAA 3 true 50 [] =
      (true, [⟨['P'], 200⟩, ⟨['P'], 200⟩]) ∧
    ¬ ((200 : ℚ) ≤ 100) :=
  ⟨dupMatcher_related_eval, by decide⟩

/-- C6 amended: every `GenomeMatch` returned by a successful
`findRelatedGenomes` call has `percentMatch` strictly greater than the
threshold — unconditionally, duplicate-named libraries included; and when no
two library genomes share a name it is also at most 100 (the stated upper
bound fails for duplicate-named genomes, whose window hits are pooled under
one name).  The matcher state ranges over states built by `addGenome` with a
constructor-conformant `k ≥ 1`. -/
theorem C6_relatedness_bounds_amended (k : Nat) (gs : List Genome) (q : Genome)
    (fm : Nat) (ex : Bool) (τ : ℚ) (rs0 rs : List GenomeMatch)
    (_hk : 1 ≤ k)
    (h : findRelatedGenomes (buildMatcher k gs) q fm ex τ rs0 = (true, rs)) :
    ∀ gm ∈ rs, τ < gm.percentMatch ∧
      ((gs.map Genome.name).Nodup → gm.percentMatch ≤ 100) := by
  obtain ⟨hkk, hlib, hinv⟩ := buildMatcher_props k gs
  intro gm hgm
  unfold findRelatedGenomes at h
  split_ifs at h with h1 h2 h3
  · exact absurd (congrArg Prod.fst h) (by simp)
  · exact absurd (congrArg Prod.fst h) (by simp)
  · exact absurd (congrArg Prod.fst h) (by simp)
  · have hrs : rs = sortResults (relatedResults (buildMatcher k gs) q fm ex τ) := by
      have h5 := congrArg Prod.snd h
      simpa using h5.symm
    subst hrs
    rw [mem_sortResults] at hgm
    unfold relatedResults at hgm
    rw [List.mem_filterMap] at hgm
    obtain ⟨g, hgmem, hgeq⟩ := hgm
    split_ifs at hgeq with hp
    rw [Option.some_inj] at hgeq
    subst hgeq
    refine ⟨hp, ?_⟩
    intro hnd
    have hnd2 : ((buildMatcher k gs).genomeLibrary.map Genome.name).Nodup := by
      rw [hlib]
      exact hnd
    have hinv2 : TrieAll (gidInRange (buildMatcher k gs).genomeLibrary.length)
        (buildMatcher k gs).sequencedDNA := by
      rw [hlib]
      exact hinv
    show relatedPercent (buildMatcher k gs) q fm ex g.name ≤ 100
    unfold relatedPercent
    have hS0 : 0 < ((q.sequence.length / fm : Nat) : ℚ) := by
      have : 0 < q.sequence.length / fm := Nat.pos_of_ne_zero h2
      exact_mod_cast this
    have hcount : relatedCounts (buildMatcher k gs) q fm ex g.name ≤
        q.sequence.length / fm := relatedCounts_le _ hnd2 hinv2 q fm ex g.name
    have hdiv : (relatedCounts (buildMatcher k gs) q fm ex g.name : ℚ) /
        ((q.sequence.length / fm : Nat) : ℚ) ≤ 1 := by
      rw [div_le_one hS0]
      exact_mod_cast hcount
    calc (relatedCounts (buildMatcher k gs) q fm ex g.name : ℚ) /
          ((q.sequence.length / fm : Nat) : ℚ) * 100 ≤ 1 * 100 :=
        mul_le_mul_of_nonneg_right hdiv (by norm_num)
      _ = 100 := by norm_num

theorem uniqMatcher_related_eval :
    findRelatedGenomes (buildMatcher 3 [⟨['P'], ['A', 'A', 'A']⟩]) queryAAA 3
        true 50 [] = (true, [⟨['P'], 100⟩]) := by
  have hp : relatedPercent uniqMatcher queryAAA 3 true ['P'] = 100 := by
    unfold relatedPercent
    rw [show relatedCounts uniqMatcher queryAAA 3 true ['P'] = 1 from by decide,
      show queryAAA.sequence.length / 3 = 1 from by decide]
    norm_num
  have hres : relatedResults uniqMatcher queryAAA 3 true 50 = [⟨['P'], 100⟩] := by
    unfold relatedResults
    rw [show uniqMatcher.genomeLibrary = [⟨['P'], ['A', 'A', 'A']⟩] from by decide]
    simp only [List.filterMap_cons, List.filterMap_nil]
    rw [hp]
    norm_num
  show findRelatedGenomes uniqMatcher queryAAA 3 true 50 [] = (true, [⟨['P'], 100⟩])
  unfold findRelatedGenomes
  rw [if_neg (by decide : ¬ (3 < uniqMatcher.minSearchLength))]
  rw [if_neg (by decide : ¬ (queryAAA.sequence.length / 3 = 0))]
  rw [hres]
  rw [if_neg (by decide : ¬ (([⟨['P'], (100 : ℚ)⟩] : List GenomeMatch).length = 0))]
  rw [show sortResults [⟨['P'], (100 : ℚ)⟩] = [⟨['P'], 100⟩] from by
    simp [sortResults, insertSorted]]

theorem C6_relatedness_bounds_amended_witness :
    (50 : ℚ) < (⟨['P'], 100⟩ : GenomeMatch).percentMatch ∧
    ((([⟨['P'], ['A', 'A', 'A']⟩] : List Genome).map Genome.name).Nodup →
      (⟨['P'], 100⟩ : GenomeMatch).percentMatch ≤ 100) :=
  C6_relatedness_bounds_amended 3 [⟨['P'], ['A', 'A', 'A']⟩] queryAAA 3 true 50
    [] [⟨['P'], 100⟩] (by decide) uniqMatcher_related_eval
    ⟨['P'], 100⟩ (List.mem_singleton.mpr rfl)

end Geenomics
